import Mathlib

set_option maxRecDepth 8000

namespace Srv

/-- JS strings are modelled as lists of Unicode scalar values. -/
abbrev Str := List Char

/-- Node `Buffer`s are modelled as lists of byte values. -/
abbrev Bytes := List Nat

/-- Shorthand turning a Lean string literal into the JS string model. -/
def S (s : String) : Str := s.toList

/-- The file-system collaborator of the server: maps a path (relative to the
served root `wwwPath`, the code always builds paths as a fixed prefix plus a
relative name) to the file's bytes, or `none` when no such file exists.
`fs.existsSync p` is modelled by `(fs p).isSome`; `fs.readFileSync p`
throws when the file is absent, modelled by propagating `none`. -/
abbrev FS := Str → Option Bytes

/-- JS `String.prototype.split` with a one-character separator, returned as
the first part plus the list of remaining parts (JS `split` never returns an
empty array). -/
def splitOnChar (c : Char) : Str → Str × List Str
  | [] => ([], [])
  | a :: r =>
    let pr := splitOnChar c r
    if a = c then ([], pr.1 :: pr.2) else (a :: pr.1, pr.2)

/-- Flatten the split result into the JS parts array. -/
def splitList (pr : Str × List Str) : List Str := pr.1 :: pr.2

/-- JS `String.prototype.split` with the two-character separator CRLF,
as used by `parseRequest` on the raw request text. -/
def splitCRLF : Str → Str × List Str
  | [] => ([], [])
  | '\r' :: '\n' :: r =>
    let pr := splitCRLF r
    ([], pr.1 :: pr.2)
  | a :: r =>
    let pr := splitCRLF r
    (a :: pr.1, pr.2)

/-- Property lookup on a JS object whose own enumerable string keys are kept
in insertion order; `none` models `undefined`. -/
def jsObjGet {α : Type} (o : List (Str × α)) (k : Str) : Option α :=
  (o.find? (fun kv => kv.1 == k)).map (fun kv => kv.2)

/-- Property assignment on a JS object: an existing key keeps its position and
gets the new value, a fresh key is appended (JS insertion-order semantics). -/
def jsObjSet {α : Type} : List (Str × α) → Str → α → List (Str × α)
  | [], k, v => [(k, v)]
  | kv :: rest, k, v =>
    if kv.1 == k then (k, v) :: rest else kv :: jsObjSet rest k v

/-- A JS header value as produced by the response builders: a string, a number
(`Content-Length` is assigned `body.length`, a number), or a boolean
(`Content-Type` receives the literal `false` that `mime.lookup` returns for
unknown extensions). -/
inductive HVal where
  | str : Str → HVal
  | num : Nat → HVal
  | bool : Bool → HVal
deriving DecidableEq

/-- The request object built by `parseRequest`. -/
structure Request where
  headers : List (Str × Str)
  method : Str
  resource : Str
  params : List (Str × Str)
  body : Option Str
deriving DecidableEq

/-- The response object built by `createResponseObject`. -/
structure Response where
  statusCode : Str
  headers : List (Str × HVal)
  body : Option Bytes
deriving DecidableEq

/-- The replacement character U+FFFD emitted by lenient UTF-8 decoding. -/
def repl : Char := Char.ofNat 0xFFFD

/-- UTF-8 encoding of one Unicode scalar value (what `Buffer.from(string)`
does per character). -/
def utf8EncodeChar (n : Nat) : Bytes :=
  if n < 0x80 then [n]
  else if n < 0x800 then [0xC0 + n / 64, 0x80 + n % 64]
  else if n < 0x10000 then
    [0xE0 + n / 4096, 0x80 + (n / 64) % 64, 0x80 + n % 64]
  else
    [0xF0 + n / 262144, 0x80 + (n / 4096) % 64, 0x80 + (n / 64) % 64, 0x80 + n % 64]

/-- `Buffer.from(string)`: UTF-8 encode a JS string. -/
def utf8Encode (s : Str) : Bytes :=
  s.foldr (fun c acc => utf8EncodeChar c.toNat ++ acc) []

/-- State of the streaming UTF-8 decoder (WHATWG algorithm, which is what
Node's `Buffer.prototype.toString('utf8')` implements, with U+FFFD
substitution for invalid sequences): the output accumulated in reverse, the
number of continuation bytes still needed, the partial code point, and the
admissible range for the next continuation byte. -/
structure U8S where
  out : List Char
  needed : Nat
  cp : Nat
  lo : Nat
  hi : Nat
deriving DecidableEq

/-- Decoder transition for a byte arriving in the initial state
(no continuation pending). -/
def u8Init (b : Nat) (st : U8S) : U8S :=
  if b ≤ 0x7F then
    { out := Char.ofNat b :: st.out, needed := 0, cp := 0, lo := 0x80, hi := 0xBF }
  else if 0xC2 ≤ b ∧ b ≤ 0xDF then
    { out := st.out, needed := 1, cp := b % 32, lo := 0x80, hi := 0xBF }
  else if b = 0xE0 then
    { out := st.out, needed := 2, cp := 0, lo := 0xA0, hi := 0xBF }
  else if b = 0xED then
    { out := st.out, needed := 2, cp := 13, lo := 0x80, hi := 0x9F }
  else if 0xE1 ≤ b ∧ b ≤ 0xEF then
    { out := st.out, needed := 2, cp := b % 16, lo := 0x80, hi := 0xBF }
  else if b = 0xF0 then
    { out := st.out, needed := 3, cp := 0, lo := 0x90, hi := 0xBF }
  else if b = 0xF4 then
    { out := st.out, needed := 3, cp := 4, lo := 0x80, hi := 0x8F }
  else if 0xF1 ≤ b ∧ b ≤ 0xF3 then
    { out := st.out, needed := 3, cp := b % 8, lo := 0x80, hi := 0xBF }
  else
    { out := repl :: st.out, needed := 0, cp := 0, lo := 0x80, hi := 0xBF }

/-- One step of the streaming UTF-8 decoder.  An out-of-range continuation
byte emits U+FFFD and is then reprocessed in the initial state, exactly as
the WHATWG algorithm prepends the byte back to the stream. -/
def u8Step (st : U8S) (b : Nat) : U8S :=
  if st.needed = 0 then u8Init b st
  else if st.lo ≤ b ∧ b ≤ st.hi then
    let cp2 := st.cp * 64 + b % 64
    if st.needed = 1 then
      { out := Char.ofNat cp2 :: st.out, needed := 0, cp := 0, lo := 0x80, hi := 0xBF }
    else
      { out := st.out, needed := st.needed - 1, cp := cp2, lo := 0x80, hi := 0xBF }
  else
    u8Init b { out := repl :: st.out, needed := 0, cp := 0, lo := 0x80, hi := 0xBF }

/-- `Buffer.prototype.toString('utf8')`: lenient UTF-8 decoding with U+FFFD
substitution; a truncated final sequence also yields U+FFFD. -/
def utf8Decode (bs : Bytes) : Str :=
  let fin := bs.foldl u8Step { out := [], needed := 0, cp := 0, lo := 0x80, hi := 0xBF }
  (if fin.needed ≠ 0 then repl :: fin.out else fin.out).reverse

/-- ASCII lowercasing of one character, as `toLowerCase` acts on the ASCII
extension strings fed to the mime table. -/
def lowerChar (c : Char) : Char :=
  if 'A' ≤ c ∧ c ≤ 'Z' then Char.ofNat (c.toNat + 32) else c

/-- The characters of `l` strictly after the last occurrence of `c`
(all of `l` when `c` does not occur). -/
def afterLast (c : Char) (l : Str) : Str :=
  (l.reverse.takeWhile (fun a => a != c)).reverse

/-- Drop every trailing occurrence of `c` (Node `path.basename` ignores
trailing slashes). -/
def dropTrailingChar (c : Char) (l : Str) : Str :=
  (l.reverse.dropWhile (fun a => a == c)).reverse

/-- Modelled from the external `mime-types` npm package (the dependency the
code binds as `mime`): `lookup` prepends a dot-anchored sentinel, takes
`path.extname` of the basename, lowercases it, and returns the table entry
for that extension, or the literal `false` (here `none`) when the path is
empty, has no usable extension, or the extension is unknown.  This yields the
lowercased extension key, or `none` when `lookup` would return `false`
before consulting the table. -/
def mimeExtension (p : Str) : Option Str :=
  if p.isEmpty then none
  else
    let b := afterLast ('/') (dropTrailingChar ('/') ('x' :: '.' :: p))
    let suf := (b.reverse.takeWhile (fun a => a != '.')).reverse
    if suf.length = b.length then none
    else if b.length = suf.length + 1 then none
    else if suf.isEmpty then none
    else some (suf.map lowerChar)

/-- Modelled from the external `mime-types` npm package: the fragment of the
standard `mime-db` extension table relevant to this server (the `www` root
holds html, gif, jpeg and png files; a few more common entries are kept).
Unknown extensions have no entry. -/
def mimeDb : List (Str × Str) :=
  [ (S ("html"), S ("text/html")),
    (S ("htm"), S ("text/html")),
    (S ("txt"), S ("text/plain")),
    (S ("css"), S ("text/css")),
    (S ("json"), S ("application/json")),
    (S ("pdf"), S ("application/pdf")),
    (S ("gif"), S ("image/gif")),
    (S ("jpeg"), S ("image/jpeg")),
    (S ("jpg"), S ("image/jpeg")),
    (S ("png"), S ("image/png")) ]

/-- `mime.lookup(resourceName)`: the mime type for the file's extension, or
the literal `false` (modelled as `none`) for unknown extensions. -/
def mimeLookup (p : Str) : Option Str :=
  match mimeExtension p with
  | none => none
  | some e => jsObjGet mimeDb e

/-- JS `String.prototype.trim` on the ASCII-ish whitespace relevant here. -/
def isWsp (c : Char) : Bool :=
  c == ' ' || c == '\t' || c == '\n' || c == '\r' || c == Char.ofNat 11 || c == Char.ofNat 12

/-- JS `String.prototype.trim`. -/
def jsTrim (l : Str) : Str :=
  ((l.dropWhile isWsp).reverse.dropWhile isWsp).reverse

/-- `getMimeTypeParts`: trim, cut at the first `;`, split on `/`. -/
def getMimeTypeParts (m : Str) : Str × List Str :=
  let t := jsTrim m
  let t2 := if (';') ∈ t then t.takeWhile (fun c => c != ';') else t
  splitOnChar ('/') t2

/-- The interpolation `parts[0] + "/" + parts[1]` done by `parseMimeTypeList`
on each entry; a missing `parts[1]` interpolates as the string `undefined`. -/
def fmtMime (t : Str) : Str :=
  let pr := getMimeTypeParts t
  pr.1 ++ '/' :: (match pr.2 with
    | [] => S ("undefined")
    | b :: _ => b)

/-- The list produced by `parseMimeTypeList` on an actual string argument:
split on `,`, format each entry. -/
def parseAccept (a : Str) : List Str :=
  (splitList (splitOnChar (',') a)).map fmtMime

/-- `parseMimeTypeList(mimeTypesAsString)`.  When the caller passes
`req.headers['Accept']` and that header is absent, the argument is
`undefined` and `undefined.split(',')` throws a TypeError, modelled as
`none`. -/
def parseMimeTypeList : Option Str → Option (List Str)
  | none => none
  | some s => some (parseAccept s)

/-- `mimeTypeIsAccepted(resourceMimeType, acceptedMimeTypes)`: membership of
the resource's mime type (which may be the non-string `false`, never equal to
any accepted string) or of the wildcard. -/
def mimeTypeIsAccepted (rmt : Option Str) (accepted : List Str) : Bool :=
  (match rmt with
    | some s => accepted.contains s
    | none => false) || accepted.contains (S ("*/*"))

/-- `mimeTypeIsHtml(mimeType)`.  The callers pass `mime.lookup(...)`, which
may be the boolean `false`; then `mimeType.trim()` throws a TypeError,
modelled as `none`. -/
def mimeTypeIsHtml : Option Str → Option Bool
  | none => none
  | some s =>
    let pr := getMimeTypeParts s
    some (pr.1 == S ("text") && (match pr.2 with
      | b :: _ => b == S ("html")
      | [] => false))

/-- `getReqResourceName(req)`: strip the leading `/`; the empty remainder
becomes `index.html`. -/
def getReqResourceName (req : Request) : Str :=
  let r := req.resource.drop 1
  if r.isEmpty then S ("index.html") else r

/-- The backtick character, special in JS replacement strings. -/
def backquoteChar : Char := Char.ofNat 96

/-- The single-quote character, special in JS replacement strings. -/
def quoteChar : Char := Char.ofNat 39

/-- ECMA-262 `GetSubstitution` for a string search value (no capture
groups), as `String.prototype.replace` applies to the replacement string:
`$$` yields `$`, `$&` the matched text, a dollar before a backtick the text
before the match, a dollar before a quote the text after the match; any
other `$` is literal. -/
def getSubstitution (matched pre suf : Str) : Str → Str
  | [] => []
  | c :: rest =>
    if c = '$' then
      match rest with
      | [] => ['$']
      | d :: r2 =>
        if d = '$' then '$' :: getSubstitution matched pre suf r2
        else if d = '&' then matched ++ getSubstitution matched pre suf r2
        else if d = backquoteChar then pre ++ getSubstitution matched pre suf r2
        else if d = quoteChar then suf ++ getSubstitution matched pre suf r2
        else '$' :: getSubstitution matched pre suf (d :: r2)
    else c :: getSubstitution matched pre suf rest

/-- JS `String.prototype.indexOf` for a substring: the least index at which
`pat` occurs in `s`, `none` standing for `-1`. -/
def indexOfSub (s pat : Str) : Option Nat :=
  if pat.isPrefixOf s then some 0
  else
    match s with
    | [] => none
    | _ :: r => (indexOfSub r pat).map (fun i => i + 1)

/-- JS `String.prototype.replace` with a string search value: substitute the
first occurrence only, expanding dollar escapes in the replacement. -/
def jsReplaceFirst (s pat rep : Str) : Str :=
  match indexOfSub s pat with
  | none => s
  | some i =>
    s.take i ++ getSubstitution pat (s.take i) (s.drop (i + pat.length)) rep
      ++ s.drop (i + pat.length)

/-- The placeholder string `%%key%%` interpolated by `runCGI`. -/
def mkPat (key : Str) : Str := '%' :: '%' :: key ++ ['%', '%']

/-- One iteration of the `Object.keys(params).forEach` loop in `runCGI`. -/
def cgiStep (tpl : Str) (kv : Str × Str) : Str :=
  if (indexOfSub tpl (mkPat kv.1)).isSome then jsReplaceFirst tpl (mkPat kv.1) kv.2
  else tpl

/-- The whole substitution loop of `runCGI` on the decoded template. -/
def cgiSubst (tpl : Str) (params : List (Str × Str)) : Str :=
  params.foldl cgiStep tpl

/-- `runCGI(data, params)`: decode the buffer with `toString()`, substitute
each key's first placeholder occurrence, re-encode with `Buffer.from`. -/
def runCGI (data : Bytes) (params : List (Str × Str)) : Bytes :=
  utf8Encode (cgiSubst (utf8Decode data) params)

/-- The global-regex replacement `body.replace(/\+/g, '%20')`. -/
def plusTo20 : Str → Str
  | [] => []
  | c :: r => if c = '+' then '%' :: '2' :: '0' :: plusTo20 r else c :: plusTo20 r

/-- Value of a hexadecimal digit character. -/
def hexVal (c : Char) : Option Nat :=
  if '0' ≤ c ∧ c ≤ '9' then some (c.toNat - 48)
  else if 'a' ≤ c ∧ c ≤ 'f' then some (c.toNat - 87)
  else if 'A' ≤ c ∧ c ≤ 'F' then some (c.toNat - 55)
  else none

/-- Read one `%XX` escape, returning the octet and the rest of the string. -/
def pctTriple : Str → Option (Nat × Str)
  | '%' :: a :: b :: r =>
    match hexVal a, hexVal b with
    | some x, some y => some (16 * x + y, r)
    | _, _ => none
  | _ => none

/-- Classify a UTF-8 lead octet above 0x7F: number of continuation octets,
admissible range of the first one, and the initial code-point bits.  `none`
is an octet that can never start a valid sequence. -/
def u8Lead (b : Nat) : Option (Nat × Nat × Nat × Nat) :=
  if 0xC2 ≤ b ∧ b ≤ 0xDF then some (1, 0x80, 0xBF, b % 32)
  else if b = 0xE0 then some (2, 0xA0, 0xBF, 0)
  else if b = 0xED then some (2, 0x80, 0x9F, 13)
  else if 0xE1 ≤ b ∧ b ≤ 0xEF then some (2, 0x80, 0xBF, b % 16)
  else if b = 0xF0 then some (3, 0x90, 0xBF, 0)
  else if b = 0xF4 then some (3, 0x80, 0x8F, 4)
  else if 0xF1 ≤ b ∧ b ≤ 0xF3 then some (3, 0x80, 0xBF, b % 8)
  else none

/-- Read one escaped continuation octet within the given range and merge it
into the code point. -/
def readCont (lo hi cp : Nat) (l : Str) : Option (Nat × Str) :=
  match pctTriple l with
  | some (b, r) => if lo ≤ b ∧ b ≤ hi then some (cp * 64 + b % 64, r) else none
  | none => none

/-- Read `k` escaped continuation octets, the first within `[lo, hi]` and the
rest within `[0x80, 0xBF]`. -/
def readConts : Nat → Nat → Nat → Nat → Str → Option (Nat × Str)
  | 0, _, _, cp, l => some (cp, l)
  | k + 1, lo, hi, cp, l =>
    match readCont lo hi cp l with
    | some (cp2, r) => readConts k 0x80 0xBF cp2 r
    | none => none

/-- ECMA-262 `decodeURIComponent` on the percent-escape level: every `%XX`
run must spell a valid UTF-8 sequence, otherwise a URIError is thrown
(modelled as `none`); unescaped characters pass through.  Fuel-driven; the
initial fuel `l.length` always suffices since every step consumes at least
one character. -/
def decodeAux : Nat → Str → Option Str
  | _, [] => some []
  | 0, _ :: _ => none
  | fuel + 1, c :: r =>
    if c = '%' then
      match pctTriple (c :: r) with
      | none => none
      | some (b, r1) =>
        if b ≤ 0x7F then (decodeAux fuel r1).map (fun t => Char.ofNat b :: t)
        else
          match u8Lead b with
          | none => none
          | some (k, lo, hi, cp0) =>
            match readConts k lo hi cp0 r1 with
            | none => none
            | some (cp, r2) => (decodeAux fuel r2).map (fun t => Char.ofNat cp :: t)
    else (decodeAux fuel r).map (fun t => c :: t)

/-- JS `decodeURIComponent`, throwing modelled as `none`. -/
def decodeURIComponentJs (l : Str) : Option Str := decodeAux l.length l

/-- `parseFormUrlEncoded(body)`: split on `&`; for each pair split on `=`
and decode every segment (`+` first globalised to `%20`); the property key
is segment 0 and the value segment 1 (`undefined`, i.e. `none`, when the
pair has no `=`).  A URIError from decoding propagates. -/
def parseFormUrlEncoded (body : Str) : Option (List (Str × Option Str)) :=
  (splitList (splitOnChar ('&') body)).foldlM
    (fun props prop => do
      let parts ← (splitList (splitOnChar ('=') prop)).mapM
        (fun part => decodeURIComponentJs (plusTo20 part))
      pure (jsObjSet props (parts.headD []) (parts.get? 1)))
    []

/-- The header extraction applied by `parseRequest` to one line: split on
every `:`; at least two parts make a header; the name is part 0; the value is
part 1 with one leading space removed, then the remaining parts re-joined
with `:`. -/
def headerOfLine (line : Str) : Option (Str × Str) :=
  let pr := splitOnChar (':') line
  match pr.2 with
  | [] => none
  | v :: rest =>
    let v2 := if v.head? = some ' ' then v.drop 1 else v
    some (pr.1, rest.foldl (fun acc part => acc ++ ':' :: part) v2)

/-- The header extraction as the spec words it: a line is a header only if it
contains a `:`; the name is everything before the first `:`, the value is
everything after it with exactly one leading space trimmed. -/
def headerOfLineSpec (line : Str) : Option (Str × Str) :=
  if (':') ∈ line then
    let raw := (line.dropWhile (fun c => c != ':')).drop 1
    some (line.takeWhile (fun c => c != ':'),
      if raw.head? = some ' ' then raw.drop 1 else raw)
  else none

/-- One iteration of the `lines.forEach` loop in `parseRequest`, on the state
(headers, body, isBody): before the first empty line the line feeds the
header extraction, after it the line overwrites the body; the flag flips
after an empty line is processed. -/
def parseLoopStep (st : List (Str × Str) × Option Str × Bool) (line : Str) :
    List (Str × Str) × Option Str × Bool :=
  let h2 := if st.2.2 then st.1
    else match headerOfLine line with
      | some kv => jsObjSet st.1 kv.1 kv.2
      | none => st.1
  let b2 := if st.2.2 then some line else st.2.1
  (h2, b2, st.2.2 || line.isEmpty)

/-- Models the external `query-string` package's `parse` superficially
(strip the leading `?`, split on `&` and on `=`); no claim in this
development depends on its details. -/
def parseQS (s : Str) : List (Str × Str) :=
  let s2 := if s.head? = some '?' then s.drop 1 else s
  (splitList (splitOnChar ('&') s2)).foldl
    (fun acc pair =>
      let pr := splitOnChar ('=') pair
      jsObjSet acc pr.1 (pr.2.headD [])) []

/-- `parseRequest(requestText)`: split on CRLF; the first line yields the
method and the target (resource plus query string); a missing target makes
the later `indexOf` call throw, modelled as `none`; all lines then run
through the header/body loop. -/
def parseRequest (text : Str) : Option Request :=
  let lines := splitCRLF text
  let firstParts := splitOnChar (' ') lines.1
  match firstParts.2 with
  | [] => none
  | target :: _ =>
    let rp :=
      if (('?') ∈ target) then
        (target.takeWhile (fun c => c != '?'), parseQS (target.dropWhile (fun c => c != '?')))
      else (target, [])
    let folded := (lines.1 :: lines.2).foldl parseLoopStep ([], none, false)
    some { headers := folded.1, method := firstParts.1, resource := rp.1,
           params := rp.2, body := folded.2.1 }

/-- The `body ? body.length : 0` computation shared by the response
builders; a `Buffer` is always truthy (an empty one has length 0), `null`
is falsy. -/
def jsContentLength : Option Bytes → Nat
  | some b => b.length
  | none => 0

/-- The value stored under `Content-Type`: the mime string, or the literal
`false` that `mime.lookup` returns for unknown extensions. -/
def hvalOfMime : Option Str → HVal
  | some s => HVal.str s
  | none => HVal.bool false

/-- `create200Response(body, contentType)`; the `Date` header value (a
`moment()` format of the current time) is passed in as `date`. -/
def create200Response (date : Str) (body : Option Bytes) (contentType : Option Str) :
    Response :=
  { statusCode := S ("200 OK")
    headers := [ (S ("Date"), HVal.str date),
                 (S ("Server"), HVal.str (S ("MiServidor/1.0"))),
                 (S ("Content-Length"), HVal.num (jsContentLength body)),
                 (S ("Content-Type"), hvalOfMime contentType) ]
    body := body }

/-- `create404Response()`: reads the fixed `404.html` under the root; a
missing status page makes `readFileSync` throw, modelled as `none`. -/
def create404Response (fs : FS) (date : Str) : Option Response :=
  (fs (S ("404.html"))).map (fun body =>
    { statusCode := S ("404 NOT FOUND")
      headers := [ (S ("Date"), HVal.str date),
                   (S ("Server"), HVal.str (S ("MiServidor/1.0"))),
                   (S ("Content-Length"), HVal.num (jsContentLength (some body))),
                   (S ("Content-Type"), HVal.str (S ("text/html"))) ]
      body := some body })

/-- `create406Response()`: reads the fixed `406.html` under the root. -/
def create406Response (fs : FS) (date : Str) : Option Response :=
  (fs (S ("406.html"))).map (fun body =>
    { statusCode := S ("406 NOT ACCEPTABLE")
      headers := [ (S ("Date"), HVal.str date),
                   (S ("Server"), HVal.str (S ("MiServidor/1.0"))),
                   (S ("Content-Length"), HVal.num (jsContentLength (some body))),
                   (S ("Content-Type"), HVal.str (S ("text/html"))) ]
      body := some body })

/-- `create501Response()`: reads the fixed `501.html` under the root. -/
def create501Response (fs : FS) (date : Str) : Option Response :=
  (fs (S ("501.html"))).map (fun body =>
    { statusCode := S ("501 NOT IMPLEMENTED")
      headers := [ (S ("Date"), HVal.str date),
                   (S ("Server"), HVal.str (S ("MiServidor/1.0"))),
                   (S ("Content-Length"), HVal.num (jsContentLength (some body))),
                   (S ("Content-Type"), HVal.str (S ("text/html"))) ]
      body := some body })

/-- JS `String.prototype.replace` coerces an `undefined` replacement value to
the string `undefined`; applied to the property values `runCGI` receives
from `parseFormUrlEncoded`. -/
def propsToParams (props : List (Str × Option Str)) : List (Str × Str) :=
  props.map (fun kv => (kv.1, kv.2.getD (S ("undefined"))))

/-- `processGet(req)`.  The accepted list is computed first, so a missing
`Accept` header throws (`none`) before any other check; then the 404
existence check, the 406 negotiation check, the read, and the conditional CGI
pass (`req.body` truthy and the mime type html; `mimeTypeIsHtml` itself
throws on a `false` mime type). -/
def processGet (fs : FS) (date : Str) (req : Request) : Option Response :=
  let resourceName := getReqResourceName req
  match parseMimeTypeList (jsObjGet req.headers (S ("Accept"))) with
  | none => none
  | some acceptedMimeTypes =>
    if !((fs resourceName).isSome) then create404Response fs date
    else if !(mimeTypeIsAccepted (mimeLookup resourceName) acceptedMimeTypes) then
      create406Response fs date
    else
      match fs resourceName with
      | none => none
      | some data =>
        match req.body with
        | some b =>
          if b.isEmpty then
            some (create200Response date (some data) (mimeLookup resourceName))
          else
            match mimeTypeIsHtml (mimeLookup resourceName) with
            | none => none
            | some isHtml =>
              if isHtml then
                match parseFormUrlEncoded b with
                | none => none
                | some props =>
                  some (create200Response date
                    (some (runCGI data (propsToParams props))) (mimeLookup resourceName))
              else some (create200Response date (some data) (mimeLookup resourceName))
        | none => some (create200Response date (some data) (mimeLookup resourceName))

/-- `processHead(req)`: the same checks as `processGet`, but the 200 response
carries a `null` body and the file is never read. -/
def processHead (fs : FS) (date : Str) (req : Request) : Option Response :=
  let resourceName := getReqResourceName req
  match parseMimeTypeList (jsObjGet req.headers (S ("Accept"))) with
  | none => none
  | some acceptedMimeTypes =>
    if !((fs resourceName).isSome) then create404Response fs date
    else if !(mimeTypeIsAccepted (mimeLookup resourceName) acceptedMimeTypes) then
      create406Response fs date
    else some (create200Response date none (mimeLookup resourceName))

/-- `processPost(req)`: textually the same procedure as `processGet`. -/
def processPost (fs : FS) (date : Str) (req : Request) : Option Response :=
  let resourceName := getReqResourceName req
  match parseMimeTypeList (jsObjGet req.headers (S ("Accept"))) with
  | none => none
  | some acceptedMimeTypes =>
    if !((fs resourceName).isSome) then create404Response fs date
    else if !(mimeTypeIsAccepted (mimeLookup resourceName) acceptedMimeTypes) then
      create406Response fs date
    else
      match fs resourceName with
      | none => none
      | some data =>
        match req.body with
        | some b =>
          if b.isEmpty then
            some (create200Response date (some data) (mimeLookup resourceName))
          else
            match mimeTypeIsHtml (mimeLookup resourceName) with
            | none => none
            | some isHtml =>
              if isHtml then
                match parseFormUrlEncoded b with
                | none => none
                | some props =>
                  some (create200Response date
                    (some (runCGI data (propsToParams props))) (mimeLookup resourceName))
              else some (create200Response date (some data) (mimeLookup resourceName))
        | none => some (create200Response date (some data) (mimeLookup resourceName))

/-- `createResponse(req)`: dispatch on the method string; anything but GET,
HEAD and POST falls through to the 501 builder. -/
def createResponse (fs : FS) (date : Str) (req : Request) : Option Response :=
  if req.method = S ("GET") then processGet fs date req
  else if req.method = S ("HEAD") then processHead fs date req
  else if req.method = S ("POST") then processPost fs date req
  else create501Response fs date

/-- The spec-side header fold: feed every line through the spec's header
rule, accumulating a JS object. -/
def hFoldStep (h : List (Str × Str)) (line : Str) : List (Str × Str) :=
  match headerOfLineSpec line with
  | some kv => jsObjSet h kv.1 kv.2
  | none => h

/-- Re-join split parts: the separator, then the part, for each part. -/
def joinTail (c : Char) : List Str → Str
  | [] => []
  | p :: ps => c :: p ++ joinTail c ps

/-- A form-body segment free of the characters the splitting and decoding
steps treat specially. -/
def plainSeg (l : Str) : Bool :=
  l.all (fun c => !(c == '&' || c == '=' || c == '%' || c == '+'))

/-- The resource name's extension is unknown to the mime table (or there is
no usable extension at all). -/
def extUnknown (p : Str) : Bool :=
  match mimeExtension p with
  | none => true
  | some e => (jsObjGet mimeDb e).isNone

/-- The spec invariant on a response: the `Content-Length` header holds
exactly the byte length of the body, 0 when the body is absent. -/
def contentLengthInv (r : Response) : Prop :=
  jsObjGet r.headers (S ("Content-Length")) = some (HVal.num (jsContentLength r.body))

/-- A sample served root: an `index.html`, a `proceso.html` with a
placeholder, a file with an unknown extension, and the three status pages. -/
def fsSample : FS := fun p =>
  if p = S ("index.html") then some (utf8Encode (S ("<html>hola</html>")))
  else if p = S ("proceso.html") then some (utf8Encode (S ("<p>%%mensaje%%</p>")))
  else if p = S ("file.xyzw") then some [104, 105]
  else if p = S ("404.html") then some (utf8Encode (S ("<h1>404</h1>")))
  else if p = S ("406.html") then some (utf8Encode (S ("<h1>406</h1>")))
  else if p = S ("501.html") then some (utf8Encode (S ("<h1>501</h1>")))
  else none

/-- A sample GET request carrying no `Accept` header. -/
def reqNoAccept : Request :=
  { headers := [(S ("Host"), S ("localhost:9090"))]
    method := S ("GET")
    resource := S ("/index.html")
    params := []
    body := none }

/-- A sample HEAD request whose target exists and is accepted. -/
def reqHead : Request :=
  { headers := [(S ("Accept"), S ("text/html"))]
    method := S ("HEAD")
    resource := S ("/index.html")
    params := []
    body := none }

/-- A sample PUT request (an unsupported method). -/
def reqPut : Request :=
  { headers := [(S ("Accept"), S ("*/*"))]
    method := S ("PUT")
    resource := S ("/proceso.html")
    params := []
    body := some (S ("mensaje=Hola+Mundo")) }

/-- A sample GET request for the unknown-extension file, accepting
anything. -/
def reqXyzw : Request :=
  { headers := [(S ("Accept"), S ("*/*"))]
    method := S ("GET")
    resource := S ("/file.xyzw")
    params := []
    body := none }

theorem find?_cons_true {α : Type} (p : α → Bool) (a : α) (l : List α)
    (h : p a = true) : List.find? p (a :: l) = some a := by
  simp [List.find?, h]

theorem find?_cons_false {α : Type} (p : α → Bool) (a : α) (l : List α)
    (h : p a = false) : List.find? p (a :: l) = List.find? p l := by
  simp [List.find?, h]

theorem jsObjGet_set_self {α : Type} (o : List (Str × α)) (k : Str) (v : α) :
    jsObjGet (jsObjSet o k v) k = some v := by
  induction o with
  | nil =>
    unfold jsObjGet jsObjSet
    rw [find?_cons_true (fun kv => kv.1 == k) (k, v) [] (by simp)]
    rfl
  | cons kv rest ih =>
    by_cases h : (kv.1 == k) = true
    · rw [jsObjSet, if_pos h]
      unfold jsObjGet
      rw [find?_cons_true (fun kv => kv.1 == k) (k, v) rest (by simp)]
      rfl
    · have hf : (kv.1 == k) = false := by simpa using h
      rw [jsObjSet, if_neg h]
      unfold jsObjGet at ih ⊢
      rw [find?_cons_false (fun kv => kv.1 == k) kv (jsObjSet rest k v) hf]
      exact ih

theorem jsObjGet_set_isSome {α : Type} (o : List (Str × α)) (k k2 : Str) (v : α)
    (h : (jsObjGet o k).isSome = true) :
    (jsObjGet (jsObjSet o k2 v) k).isSome = true := by
  induction o with
  | nil => simp [jsObjGet] at h
  | cons kv rest ih =>
    by_cases h2 : (kv.1 == k2) = true
    · rw [jsObjSet, if_pos h2]
      by_cases h3 : (k2 == k) = true
      · unfold jsObjGet
        rw [find?_cons_true (fun kv => kv.1 == k) (k2, v) rest h3]
        rfl
      · have h3f : (k2 == k) = false := by simpa using h3
        unfold jsObjGet at h ⊢
        rw [find?_cons_false (fun kv => kv.1 == k) (k2, v) rest h3f]
        have hkv : (kv.1 == k) = false := by
          have he : kv.1 = k2 := eq_of_beq h2
          rw [he]
          exact h3f
        rw [find?_cons_false (fun kv => kv.1 == k) kv rest hkv] at h
        exact h
    · rw [jsObjSet, if_neg h2]
      by_cases h3 : (kv.1 == k) = true
      · unfold jsObjGet
        rw [find?_cons_true (fun kv => kv.1 == k) kv (jsObjSet rest k2 v) h3]
        rfl
      · have h3f : (kv.1 == k) = false := by simpa using h3
        unfold jsObjGet at h ih ⊢
        rw [find?_cons_false (fun kv => kv.1 == k) kv rest h3f] at h
        rw [find?_cons_false (fun kv => kv.1 == k) kv (jsObjSet rest k2 v) h3f]
        exact ih h

theorem splitOnChar_fst (c : Char) (l : Str) :
    (splitOnChar c l).1 = l.takeWhile (fun a => a != c) := by
  induction l with
  | nil => rfl
  | cons a r ih =>
    by_cases h : a = c
    · subst h; simp [splitOnChar, List.takeWhile_cons]
    · simp [splitOnChar, h, List.takeWhile_cons, ih]

theorem splitOnChar_not_mem (c : Char) (l : Str) (h : c ∉ l) :
    splitOnChar c l = (l, []) := by
  induction l with
  | nil => rfl
  | cons a r ih =>
    have ha : a ≠ c := fun he => h (he ▸ List.mem_cons_self a r)
    have hr : c ∉ r := fun hm => h (List.mem_cons_of_mem a hm)
    simp [splitOnChar, ha, ih hr]

theorem splitOnChar_app (c : Char) (a t : Str) (h : c ∉ a) :
    splitOnChar c (a ++ c :: t) = (a, (splitOnChar c t).1 :: (splitOnChar c t).2) := by
  induction a with
  | nil => simp [splitOnChar]
  | cons x r ih =>
    have hx : x ≠ c := fun he => h (he ▸ List.mem_cons_self x r)
    have hr : c ∉ r := fun hm => h (List.mem_cons_of_mem x hm)
    simp [splitOnChar, hx, ih hr]

theorem splitOnChar_join (c : Char) (l : Str) :
    (splitOnChar c l).1 ++ joinTail c (splitOnChar c l).2 = l := by
  induction l with
  | nil => rfl
  | cons a r ih =>
    by_cases h : a = c
    · subst h; simp [splitOnChar, joinTail, ih]
    · simp [splitOnChar, h, joinTail]
      simpa using ih

theorem splitOnChar_snd_ne_nil (c : Char) (l : Str) (h : c ∈ l) :
    (splitOnChar c l).2 ≠ [] := by
  induction l with
  | nil => cases h
  | cons a r ih =>
    by_cases ha : a = c
    · subst ha; simp [splitOnChar]
    · have hr : c ∈ r := by
        cases h with
        | head => exact absurd rfl ha
        | tail _ hm => exact hm
      simp [splitOnChar, ha]
      exact ih hr

theorem foldl_join (c : Char) (rest : List Str) (v : Str) :
    rest.foldl (fun acc part => acc ++ c :: part) v = v ++ joinTail c rest := by
  induction rest generalizing v with
  | nil => simp [joinTail]
  | cons p ps ih => simp [joinTail, ih, List.append_assoc]

theorem takeWhile_app_stop {α : Type} (p : α → Bool) (a : List α) (x : α) (t : List α)
    (ha : ∀ y ∈ a, p y = true) (hx : p x = false) :
    (a ++ x :: t).takeWhile p = a := by
  induction a with
  | nil => simp [List.takeWhile_cons, hx]
  | cons y r ih =>
    have hy := ha y (List.mem_cons_self y r)
    simp [List.takeWhile_cons, hy,
      ih (fun z hz => ha z (List.mem_cons_of_mem y hz))]

theorem dropWhile_app_stop {α : Type} (p : α → Bool) (a : List α) (x : α) (t : List α)
    (ha : ∀ y ∈ a, p y = true) (hx : p x = false) :
    (a ++ x :: t).dropWhile p = x :: t := by
  induction a with
  | nil => simp [List.dropWhile_cons, hx]
  | cons y r ih =>
    have hy := ha y (List.mem_cons_self y r)
    simp [List.dropWhile_cons, hy,
      ih (fun z hz => ha z (List.mem_cons_of_mem y hz))]

theorem mem_takeWhile_pred {α : Type} (p : α → Bool) (l : List α) (y : α)
    (hy : y ∈ l.takeWhile p) : p y = true := by
  induction l with
  | nil => cases hy
  | cons a r ih =>
    rw [List.takeWhile_cons] at hy
    by_cases hp : p a = true
    · rw [if_pos hp] at hy
      cases hy with
      | head => exact hp
      | tail _ hm => exact ih hm
    · rw [if_neg hp] at hy
      cases hy

theorem headerOfLine_eq_spec (line : Str) : headerOfLine line = headerOfLineSpec line := by
  by_cases hc : (':') ∈ line
  · obtain ⟨v, rest, hvr⟩ : ∃ v rest, (splitOnChar (':') line).2 = v :: rest := by
      cases h2 : (splitOnChar (':') line).2 with
      | nil => exact absurd h2 (splitOnChar_snd_ne_nil (':') line hc)
      | cons v rest => exact ⟨v, rest, rfl⟩
    have hjoin := splitOnChar_join (':') line
    rw [hvr] at hjoin
    have hmem : ∀ y ∈ (splitOnChar (':') line).1, (fun a => a != ':') y = true := by
      rw [splitOnChar_fst]
      intro y hy
      exact mem_takeWhile_pred (fun a => a != ':') line y hy
    have htake : line.takeWhile (fun a => a != ':') = (splitOnChar (':') line).1 := by
      conv_lhs => rw [← hjoin]
      rw [joinTail, List.cons_append,
        takeWhile_app_stop (fun a => a != ':') ((splitOnChar (':') line).1) (':')
          (v ++ joinTail (':') rest) hmem (by simp)]
    have hdrop : line.dropWhile (fun a => a != ':') = ':' :: (v ++ joinTail (':') rest) := by
      conv_lhs => rw [← hjoin]
      rw [joinTail, List.cons_append,
        dropWhile_app_stop (fun a => a != ':') ((splitOnChar (':') line).1) (':')
          (v ++ joinTail (':') rest) hmem (by simp)]
    unfold headerOfLine headerOfLineSpec
    rw [if_pos hc]
    simp only [hvr, htake, hdrop, List.drop_succ_cons, List.drop_zero, foldl_join]
    cases v with
    | nil =>
      cases rest with
      | nil => simp [joinTail]
      | cons p ps =>
        have h2 : ¬(List.head? ((':') :: (p ++ joinTail (':') ps)) = some ' ') := by
          rw [List.head?_cons]
          intro h
          exact absurd (Option.some.inj h) (by decide)
        simp only [joinTail, List.nil_append, List.cons_append]
        rw [if_neg h2, if_neg (show ¬(List.head? ([] : Str) = some ' ') by simp)]
        rw [List.nil_append]
    | cons c v2 =>
      by_cases hsp : c = ' '
      · subst hsp
        simp [List.head?_cons]
      · simp [List.head?_cons, hsp]
  · have hsplit := splitOnChar_not_mem (':') line hc
    unfold headerOfLine headerOfLineSpec
    rw [if_neg hc, hsplit]

theorem parseLoop_true (lines : List Str) (h : List (Str × Str)) (b : Option Str) :
    (lines.foldl parseLoopStep (h, b, true)).1 = h := by
  induction lines generalizing b with
  | nil => rfl
  | cons line rest ih =>
    simp only [List.foldl_cons, parseLoopStep, Bool.true_or, if_true]
    exact ih _

theorem parseLoop_headers (lines : List Str) (h : List (Str × Str)) (b : Option Str) :
    (lines.foldl parseLoopStep (h, b, false)).1
      = (lines.takeWhile (fun l => !l.isEmpty)).foldl hFoldStep h := by
  induction lines generalizing h b with
  | nil => rfl
  | cons line rest ih =>
    by_cases he : line.isEmpty = true
    · have hl : line = [] := by
        cases line with
        | nil => rfl
        | cons a r => simp [List.isEmpty] at he
      subst hl
      simp only [List.foldl_cons, parseLoopStep, List.isEmpty_nil, Bool.false_or, if_false,
        List.takeWhile_cons, Bool.not_true, Bool.false_eq_true, ite_false]
      have hnone : headerOfLine [] = none := rfl
      rw [hnone]
      exact parseLoop_true rest h b
    · have hef : line.isEmpty = false := by simpa using he
      simp only [List.foldl_cons, parseLoopStep, hef, Bool.or_false, if_false,
        List.takeWhile_cons, Bool.not_false, if_true, Bool.false_eq_true, ite_false, ite_true]
      rw [headerOfLine_eq_spec]
      cases hh : headerOfLineSpec line with
      | none => simpa [hFoldStep, hh] using ih _ b
      | some kv => simpa [hFoldStep, hh] using ih _ b

theorem foldl_hFoldStep_presence (lines : List Str) (h0 : List (Str × Str)) (k : Str)
    (hk : (jsObjGet h0 k).isSome = true) :
    (jsObjGet (lines.foldl hFoldStep h0) k).isSome = true := by
  induction lines generalizing h0 with
  | nil => exact hk
  | cons line rest ih =>
    simp only [List.foldl_cons]
    cases hh : headerOfLineSpec line with
    | none =>
      rw [show hFoldStep h0 line = h0 by rw [hFoldStep, hh]]
      exact ih h0 hk
    | some kv =>
      rw [show hFoldStep h0 line = jsObjSet h0 kv.1 kv.2 by rw [hFoldStep, hh]]
      exact ih _ (jsObjGet_set_isSome h0 k kv.1 kv.2 hk)

theorem parseRequest_headers_fold (text : Str) (req : Request)
    (hp : parseRequest text = some req) :
    req.headers
      = (((splitCRLF text).1 :: (splitCRLF text).2).takeWhile
          (fun l => !l.isEmpty)).foldl hFoldStep [] := by
  simp only [parseRequest] at hp
  cases htt : (splitOnChar (' ') (splitCRLF text).1).2 with
  | nil =>
    rw [htt] at hp
    exact absurd hp (by simp)
  | cons target rest =>
    rw [htt] at hp
    have hreq := Option.some.inj hp
    rw [← hreq]
    exact parseLoop_headers ((splitCRLF text).1 :: (splitCRLF text).2) [] none

theorem parseRequest_first_nonempty (text : Str) (req : Request)
    (hp : parseRequest text = some req) : (splitCRLF text).1 ≠ [] := by
  intro h0
  simp only [parseRequest] at hp
  rw [h0] at hp
  simp [splitOnChar] at hp

/-- C4: `parseRequest` treats each line before the first empty line as a
header only if the line contains a `:`; such a line contributes exactly the
entry whose name is the text before the first `:` and whose value is the
text after it with exactly one leading space trimmed — i.e. the naive
split-on-`:` segments are re-joined losslessly, as `headerOfLineSpec`
states; lines lacking a `:` contribute no entry. -/
theorem c4_header_splitting (text : Str) (req : Request)
    (hp : parseRequest text = some req) :
    req.headers
      = ((splitList (splitCRLF text)).takeWhile (fun l => !l.isEmpty)).foldl hFoldStep []
    := by
  rw [splitList]
  exact parseRequest_headers_fold text req hp

theorem c4_header_splitting_witness :
    (Request.mk [(S ("Host"), S ("localhost:9090"))] (S ("GET")) (S ("/")) [] (some [])).headers
      = ((splitList (splitCRLF (S ("GET / HTTP/1.1\r\nHost: localhost:9090\r\n\r\n")))).takeWhile
          (fun l => !l.isEmpty)).foldl hFoldStep [] :=
  c4_header_splitting (S ("GET / HTTP/1.1\r\nHost: localhost:9090\r\n\r\n"))
    (Request.mk [(S ("Host"), S ("localhost:9090"))] (S ("GET")) (S ("/")) [] (some []))
    (by decide)

/-- C10: the header loop of `parseRequest` scans the request line too: when
the first line contains a `:`, the parsed headers contain a spurious entry
keyed by the text of the request line before its first `:`; when it contains
no `:`, the headers are exactly those contributed by the subsequent
pre-empty-line lines. -/
theorem c10_request_line_scanned (text : Str) (req : Request)
    (hp : parseRequest text = some req) :
    (((':') ∈ (splitCRLF text).1) →
      (jsObjGet req.headers
        (((splitCRLF text).1).takeWhile (fun a => a != ':'))).isSome = true)
    ∧ (((':') ∉ (splitCRLF text).1) →
      req.headers
        = (((splitCRLF text).2).takeWhile (fun l => !l.isEmpty)).foldl hFoldStep []) := by
  have hne := parseRequest_first_nonempty text req hp
  have hfold := parseRequest_headers_fold text req hp
  have hempty : ((splitCRLF text).1).isEmpty = false := by
    cases h0 : (splitCRLF text).1 with
    | nil => exact absurd h0 hne
    | cons a r => rfl
  rw [List.takeWhile_cons, hempty] at hfold
  simp only [Bool.not_false, if_true, List.foldl_cons] at hfold
  constructor
  · intro hc
    have hsome : headerOfLineSpec ((splitCRLF text).1)
        = some ((((splitCRLF text).1).takeWhile (fun a => a != ':')),
            (let raw := (((splitCRLF text).1).dropWhile (fun c => c != ':')).drop 1
             if raw.head? = some ' ' then raw.drop 1 else raw)) := by
      unfold headerOfLineSpec
      rw [if_pos hc]
    have hstep : hFoldStep [] ((splitCRLF text).1)
        = jsObjSet [] (((splitCRLF text).1).takeWhile (fun a => a != ':'))
            (let raw := (((splitCRLF text).1).dropWhile (fun c => c != ':')).drop 1
             if raw.head? = some ' ' then raw.drop 1 else raw) := by
      rw [hFoldStep, hsome]
    rw [hfold, hstep]
    exact foldl_hFoldStep_presence _ _ _
      (by rw [jsObjGet_set_self]; rfl)
  · intro hc
    have hnone : headerOfLineSpec ((splitCRLF text).1) = none := by
      unfold headerOfLineSpec
      rw [if_neg hc]
    have hstep : hFoldStep [] ((splitCRLF text).1) = [] := by
      rw [hFoldStep, hnone]
    rw [hfold, hstep]

theorem c10_request_line_scanned_witness :
    (jsObjGet
      (Request.mk
        [(S ("GET http"), S ("//h/a HTTP/1.1")), (S ("Host"), S ("h"))]
        (S ("GET")) (S ("http://h/a")) [] (some [])).headers
      (S ("GET http"))).isSome = true :=
  (c10_request_line_scanned (S ("GET http://h/a HTTP/1.1\r\nHost: h\r\n\r\n"))
    (Request.mk
      [(S ("GET http"), S ("//h/a HTTP/1.1")), (S ("Host"), S ("h"))]
      (S ("GET")) (S ("http://h/a")) [] (some []))
    (by decide)).1 (by decide)

/-- C1 is a code bug: there is no `*/*` defaulting at all.  For any request
whose headers lack an `Accept` entry, all three resolver paths call
`parseMimeTypeList(undefined)`, which throws a TypeError before any
existence or negotiation check, so no response (neither 406 nor 200) is
produced. -/
theorem c1_missing_accept_fatal (fs : FS) (date : Str) (req : Request)
    (h : jsObjGet req.headers (S ("Accept")) = none) :
    processGet fs date req = none ∧ processHead fs date req = none
      ∧ processPost fs date req = none := by
  refine ⟨?_, ?_, ?_⟩
  · unfold processGet
    rw [h]
    rfl
  · unfold processHead
    rw [h]
    rfl
  · unfold processPost
    rw [h]
    rfl

theorem c1_missing_accept_fatal_witness :
    processGet fsSample [] reqNoAccept = none
    ∧ processHead fsSample [] reqNoAccept = none
    ∧ processPost fsSample [] reqNoAccept = none :=
  c1_missing_accept_fatal fsSample [] reqNoAccept (by decide)

/-- C3: every response builder sets `Content-Length` to the exact byte
length of the body it stores, and to 0 when the body is absent. -/
theorem c3_content_length (fs : FS) (date : Str) (body : Option Bytes) (ct : Option Str) :
    contentLengthInv (create200Response date body ct)
    ∧ (create404Response fs date).elim True contentLengthInv
    ∧ (create406Response fs date).elim True contentLengthInv
    ∧ (create501Response fs date).elim True contentLengthInv := by
  refine ⟨rfl, ?_, ?_, ?_⟩
  · cases h : fs (S ("404.html")) with
    | none => rw [create404Response, h]; exact trivial
    | some b => rw [create404Response, h]; exact rfl
  · cases h : fs (S ("406.html")) with
    | none => rw [create406Response, h]; exact trivial
    | some b => rw [create406Response, h]; exact rfl
  · cases h : fs (S ("501.html")) with
    | none => rw [create501Response, h]; exact trivial
    | some b => rw [create501Response, h]; exact rfl

theorem c3_content_length_witness :
    contentLengthInv (create200Response [] (some [104, 105, 106]) (some (S ("text/html"))))
    ∧ (create404Response fsSample []).elim True contentLengthInv :=
  ⟨(c3_content_length fsSample [] (some [104, 105, 106]) (some (S ("text/html")))).1,
   (c3_content_length fsSample [] (some [104, 105, 106]) (some (S ("text/html")))).2.1⟩

/-- C8: a HEAD request for an existing resource whose mime type is accepted
yields a 200 response with an absent body, `Content-Length` 0 and
`Content-Type` equal to the target file's mime type; the file's content is
never read — any file system agreeing on existence produces the same
response. -/
theorem c8_head_no_body (fs : FS) (date : Str) (req : Request) (a : Str) (b : Bytes)
    (hm : req.method = S ("HEAD"))
    (hacc : jsObjGet req.headers (S ("Accept")) = some a)
    (hex : fs (getReqResourceName req) = some b)
    (hok : mimeTypeIsAccepted (mimeLookup (getReqResourceName req)) (parseAccept a) = true) :
    createResponse fs date req
      = some (create200Response date none (mimeLookup (getReqResourceName req)))
    ∧ (create200Response date none (mimeLookup (getReqResourceName req))).body = none
    ∧ jsObjGet (create200Response date none (mimeLookup (getReqResourceName req))).headers
        (S ("Content-Length")) = some (HVal.num 0)
    ∧ jsObjGet (create200Response date none (mimeLookup (getReqResourceName req))).headers
        (S ("Content-Type")) = some (hvalOfMime (mimeLookup (getReqResourceName req)))
    ∧ ∀ g : FS, (∀ p, (g p).isSome = (fs p).isSome) →
        createResponse g date req = createResponse fs date req := by
  have hng : req.method ≠ S ("GET") := by rw [hm]; decide
  have key : ∀ f2 : FS, (f2 (getReqResourceName req)).isSome = true →
      createResponse f2 date req
        = some (create200Response date none (mimeLookup (getReqResourceName req))) := by
    intro f2 h2
    unfold createResponse
    rw [if_neg hng, if_pos hm]
    unfold processHead
    rw [hacc]
    simp [parseMimeTypeList, h2, hok]
  refine ⟨key fs (by rw [hex]; rfl), rfl, rfl, rfl, ?_⟩
  intro g hg
  rw [key g (by rw [hg, hex]; rfl), key fs (by rw [hex]; rfl)]

theorem c8_head_no_body_witness :
    createResponse fsSample [] reqHead
      = some (create200Response [] none (mimeLookup (getReqResourceName reqHead))) :=
  (c8_head_no_body fsSample [] reqHead (S ("text/html"))
    (utf8Encode (S ("<html>hola</html>")))
    (by decide) (by decide) (by decide) (by decide)).1

/-- C9: a request whose method is none of GET, HEAD, POST is answered by the
501 builder: the response carries the fixed `501.html` document as its body,
independently of the requested resource's existence. -/
theorem c9_other_methods_501 (fs : FS) (date : Str) (req : Request) (b : Bytes)
    (h1 : req.method ≠ S ("GET")) (h2 : req.method ≠ S ("HEAD"))
    (h3 : req.method ≠ S ("POST"))
    (h501 : fs (S ("501.html")) = some b) :
    createResponse fs date req
      = some { statusCode := S ("501 NOT IMPLEMENTED")
               headers := [ (S ("Date"), HVal.str date),
                            (S ("Server"), HVal.str (S ("MiServidor/1.0"))),
                            (S ("Content-Length"), HVal.num b.length),
                            (S ("Content-Type"), HVal.str (S ("text/html"))) ]
               body := some b } := by
  unfold createResponse
  rw [if_neg h1, if_neg h2, if_neg h3]
  unfold create501Response
  rw [h501]
  rfl

theorem c9_other_methods_501_witness :
    createResponse fsSample [] reqPut
      = some { statusCode := S ("501 NOT IMPLEMENTED")
               headers := [ (S ("Date"), HVal.str []),
                            (S ("Server"), HVal.str (S ("MiServidor/1.0"))),
                            (S ("Content-Length"),
                              HVal.num (utf8Encode (S ("<h1>501</h1>"))).length),
                            (S ("Content-Type"), HVal.str (S ("text/html"))) ]
               body := some (utf8Encode (S ("<h1>501</h1>"))) } :=
  c9_other_methods_501 fsSample [] reqPut (utf8Encode (S ("<h1>501</h1>")))
    (by decide) (by decide) (by decide) (by decide)

theorem getSubstitution_no_dollar (matched pre suf v : Str) (h : ('$') ∉ v) :
    getSubstitution matched pre suf v = v := by
  induction v with
  | nil => rfl
  | cons c rest ih =>
    have hc : c ≠ '$' := by
      intro he
      exact h (he ▸ List.mem_cons_self c rest)
    have hrest : ('$') ∉ rest := fun hm => h (List.mem_cons_of_mem c hm)
    rw [getSubstitution.eq_def]
    simp only
    rw [if_neg hc, ih hrest]

theorem indexOfSub_found (s pat : Str) (i : Nat) (h : indexOfSub s pat = some i) :
    pat.isPrefixOf (s.drop i) = true := by
  induction s generalizing i with
  | nil =>
    unfold indexOfSub at h
    by_cases hp : pat.isPrefixOf ([] : Str) = true
    · rw [if_pos hp] at h
      cases h
      simpa using hp
    · rw [if_neg hp] at h
      cases h
  | cons a r ih =>
    unfold indexOfSub at h
    by_cases hp : pat.isPrefixOf (a :: r) = true
    · rw [if_pos hp] at h
      cases h
      simpa using hp
    · rw [if_neg hp] at h
      obtain ⟨j, hj, rfl⟩ := Option.map_eq_some'.mp h
      simpa using ih j hj

theorem indexOfSub_min (s pat : Str) (i : Nat) (h : indexOfSub s pat = some i) :
    ∀ j, j < i → pat.isPrefixOf (s.drop j) = false := by
  induction s generalizing i with
  | nil =>
    unfold indexOfSub at h
    by_cases hp : pat.isPrefixOf ([] : Str) = true
    · rw [if_pos hp] at h
      cases h
      intro j hj
      exact absurd hj (Nat.not_lt_zero j)
    · rw [if_neg hp] at h
      cases h
  | cons a r ih =>
    unfold indexOfSub at h
    by_cases hp : pat.isPrefixOf (a :: r) = true
    · rw [if_pos hp] at h
      cases h
      intro j hj
      exact absurd hj (Nat.not_lt_zero j)
    · rw [if_neg hp] at h
      obtain ⟨j0, hj0, rfl⟩ := Option.map_eq_some'.mp h
      intro j hj
      cases j with
      | zero =>
        rw [List.drop_zero]
        cases hb : pat.isPrefixOf (a :: r) with
        | false => rfl
        | true => exact absurd hb hp
      | succ jp =>
        rw [List.drop_succ_cons]
        exact ih j0 hj0 jp (Nat.lt_of_succ_lt_succ hj)

/-- C2 amended: one pass of the `runCGI` loop replaces exactly the first
occurrence of `%%key%%`; the text before and after that occurrence (hence
every later occurrence) is kept verbatim; the inserted text is the key's
value run through the JS replacement-string dollar expansion, which is the
value itself whenever the value contains no `$`. -/
theorem c2_first_occurrence_only (tpl key val : Str) (i : Nat)
    (h : indexOfSub tpl (mkPat key) = some i) :
    cgiStep tpl (key, val)
      = tpl.take i
        ++ getSubstitution (mkPat key) (tpl.take i) (tpl.drop (i + (mkPat key).length)) val
        ++ tpl.drop (i + (mkPat key).length)
    ∧ (('$') ∉ val →
        getSubstitution (mkPat key) (tpl.take i) (tpl.drop (i + (mkPat key).length)) val
          = val)
    ∧ (mkPat key).isPrefixOf (tpl.drop i) = true
    ∧ (∀ j, j < i → (mkPat key).isPrefixOf (tpl.drop j) = false) := by
  refine ⟨?_, ?_, indexOfSub_found tpl (mkPat key) i h, indexOfSub_min tpl (mkPat key) i h⟩
  · unfold cgiStep
    rw [h]
    unfold jsReplaceFirst
    rw [h]
    rfl
  · intro hd
    exact getSubstitution_no_dollar _ _ _ val hd

theorem c2_first_occurrence_only_witness :
    cgiStep (S ("A%%k%%B%%k%%C")) (S ("k"), S ("v"))
      = (S ("A%%k%%B%%k%%C")).take 1
        ++ getSubstitution (mkPat (S ("k"))) ((S ("A%%k%%B%%k%%C")).take 1)
            ((S ("A%%k%%B%%k%%C")).drop (1 + (mkPat (S ("k"))).length)) (S ("v"))
        ++ (S ("A%%k%%B%%k%%C")).drop (1 + (mkPat (S ("k"))).length)
    ∧ (mkPat (S ("k"))).isPrefixOf ((S ("A%%k%%B%%k%%C")).drop 1) = true :=
  ⟨(c2_first_occurrence_only (S ("A%%k%%B%%k%%C")) (S ("k")) (S ("v")) 1 (by decide)).1,
   (c2_first_occurrence_only (S ("A%%k%%B%%k%%C")) (S ("k")) (S ("v")) 1 (by decide)).2.2.1⟩

/-- C2 as literally stated is false: the replacement is not always the key's
value.  With the value `$$`, JS replacement-string expansion inserts a single
`$`: the claim predicts `A$$B` but `runCGI` produces `A$B`. -/
theorem c2_counterexample :
    runCGI (utf8Encode (S ("A%%k%%B"))) [(S ("k"), S ("$$"))] = utf8Encode (S ("A$B"))
    ∧ runCGI (utf8Encode (S ("A%%k%%B"))) [(S ("k"), S ("$$"))] ≠ utf8Encode (S ("A$$B"))
    := by decide

theorem cgiSubst_no_match (params : List (Str × Str)) (tpl : Str)
    (h : ∀ kv ∈ params, indexOfSub tpl (mkPat kv.1) = none) :
    cgiSubst tpl params = tpl := by
  induction params with
  | nil => rfl
  | cons kv rest ih =>
    have h1 := h kv (List.mem_cons_self kv rest)
    have hstep : cgiStep tpl kv = tpl := by
      unfold cgiStep
      rw [h1]
      rfl
    unfold cgiSubst at ih ⊢
    rw [List.foldl_cons, hstep]
    exact ih (fun kv2 hm => h kv2 (List.mem_cons_of_mem kv hm))

/-- C7 amended: on a document whose bytes survive the decode/encode round
trip (any valid UTF-8 document), a parameter mapping with no matching
placeholder leaves the document byte-for-byte unchanged. -/
theorem c7_no_placeholder_identity (data : Bytes) (params : List (Str × Str))
    (hutf : utf8Encode (utf8Decode data) = data)
    (h : ∀ kv ∈ params, indexOfSub (utf8Decode data) (mkPat kv.1) = none) :
    runCGI data params = data := by
  unfold runCGI
  rw [cgiSubst_no_match params (utf8Decode data) h, hutf]

theorem c7_no_placeholder_identity_witness :
    runCGI (utf8Encode (S ("<html>hola</html>"))) [(S ("k"), S ("v"))]
      = utf8Encode (S ("<html>hola</html>")) :=
  c7_no_placeholder_identity (utf8Encode (S ("<html>hola</html>")))
    [(S ("k"), S ("v"))] (by decide) (by decide)

/-- C7 as literally stated is false for arbitrary byte buffers: a document
that is not valid UTF-8 is altered even by an empty parameter mapping,
because `toString`/`Buffer.from` replace the invalid byte 0xFF with the
three-byte encoding of U+FFFD. -/
theorem c7_counterexample :
    runCGI [0xFF] [] = [0xEF, 0xBF, 0xBD] ∧ runCGI [0xFF] [] ≠ [0xFF] := by decide

/-- C5 amended: a resource name whose extension has no entry in the mime
table (or no usable extension at all) is classified as the boolean `false`
— no mime type — and that `false`, not `application/octet-stream`, is the
value the resolver then stores under `Content-Type`. -/
theorem c5_unknown_extension (p : Str) (h : extUnknown p = true) :
    mimeLookup p = none
    ∧ hvalOfMime (mimeLookup p) = HVal.bool false
    ∧ mimeLookup p ≠ some (S ("application/octet-stream")) := by
  have hl : mimeLookup p = none := by
    unfold mimeLookup
    unfold extUnknown at h
    cases he : mimeExtension p with
    | none => rfl
    | some e =>
      rw [he] at h
      show jsObjGet mimeDb e = none
      cases hg : jsObjGet mimeDb e with
      | none => rfl
      | some v =>
        have h2 : (jsObjGet mimeDb e).isNone = true := h
        rw [hg] at h2
        simp at h2
  refine ⟨hl, by rw [hl]; rfl, by rw [hl]; intro hx; cases hx⟩

theorem c5_unknown_extension_witness :
    mimeLookup (S ("file.xyzw")) = none
    ∧ hvalOfMime (mimeLookup (S ("file.xyzw"))) = HVal.bool false
    ∧ mimeLookup (S ("file.xyzw")) ≠ some (S ("application/octet-stream")) :=
  c5_unknown_extension (S ("file.xyzw")) (by decide)

/-- C5 as stated is false: for an unknown extension the classifier returns
the boolean `false` rather than the generic octet-stream type, and a GET for
such an existing file (accepted via the wildcard) yields a 200 whose
`Content-Type` header carries the value `false`. -/
theorem c5_counterexample :
    mimeLookup (S ("file.xyzw")) ≠ some (S ("application/octet-stream"))
    ∧ processGet fsSample [] reqXyzw = some (create200Response [] (some [104, 105]) none)
    ∧ jsObjGet (create200Response [] (some [104, 105]) none).headers (S ("Content-Type"))
        = some (HVal.bool false) := by decide

theorem plusTo20_id (l : Str) (h : ('+') ∉ l) : plusTo20 l = l := by
  induction l with
  | nil => rfl
  | cons c r ih =>
    have hc : c ≠ '+' := fun he => h (he ▸ List.mem_cons_self c r)
    have hr : ('+') ∉ r := fun hm => h (List.mem_cons_of_mem c hm)
    rw [plusTo20, if_neg hc, ih hr]

theorem decodeAux_plain (fuel : Nat) (l : Str) (hf : l.length ≤ fuel)
    (h : ('%') ∉ l) : decodeAux fuel l = some l := by
  induction fuel generalizing l with
  | zero =>
    cases l with
    | nil => rfl
    | cons c r => simp at hf
  | succ f ih =>
    cases l with
    | nil => rfl
    | cons c r =>
      have hc : c ≠ '%' := fun he => h (he ▸ List.mem_cons_self c r)
      have hr : ('%') ∉ r := fun hm => h (List.mem_cons_of_mem c hm)
      rw [decodeAux.eq_def]
      simp only
      rw [if_neg hc, ih r (by simpa using Nat.le_of_succ_le_succ (by simpa using hf)) hr]
      rfl

theorem decodeURIComponentJs_plain (l : Str) (h : ('%') ∉ l) :
    decodeURIComponentJs l = some l :=
  decodeAux_plain l.length l (Nat.le_refl _) h

theorem plainSeg_props (l : Str) (h : plainSeg l = true) :
    ('&') ∉ l ∧ ('=') ∉ l ∧ ('%') ∉ l ∧ ('+') ∉ l := by
  unfold plainSeg at h
  rw [List.all_eq_true] at h
  exact ⟨fun hm => absurd (h _ hm) (by decide),
         fun hm => absurd (h _ hm) (by decide),
         fun hm => absurd (h _ hm) (by decide),
         fun hm => absurd (h _ hm) (by decide)⟩

/-- C6 amended: `parseFormUrlEncoded` splits each pair on EVERY `=` and
keeps only the first two decoded segments: for a pair `a=b=c` the key is `a`
and the value is `b` — the `=c` remainder is discarded, not preserved in the
value; each kept segment is percent-decoded after `+` is globally rewritten
to `%20`. -/
theorem c6_pair_truncated (a b c : Str)
    (ha : plainSeg a = true) (hb : plainSeg b = true) (hc : plainSeg c = true) :
    parseFormUrlEncoded (a ++ ('=' :: (b ++ ('=' :: c)))) = some [(a, some b)] := by
  obtain ⟨ha1, ha2, ha3, ha4⟩ := plainSeg_props a ha
  obtain ⟨hb1, hb2, hb3, hb4⟩ := plainSeg_props b hb
  obtain ⟨hc1, hc2, hc3, hc4⟩ := plainSeg_props c hc
  have hamp : ('&') ∉ (a ++ ('=' :: (b ++ ('=' :: c)))) := by
    intro hm
    rcases List.mem_append.mp hm with h | h
    · exact ha1 h
    rcases List.mem_cons.mp h with h | h
    · exact absurd h (by decide)
    rcases List.mem_append.mp h with h | h
    · exact hb1 h
    rcases List.mem_cons.mp h with h | h
    · exact absurd h (by decide)
    · exact hc1 h
  have hs0 := splitOnChar_not_mem ('&') (a ++ ('=' :: (b ++ ('=' :: c)))) hamp
  have hs1 := splitOnChar_app ('=') a (b ++ ('=' :: c)) ha2
  have hs2 := splitOnChar_app ('=') b c hb2
  have hs3 := splitOnChar_not_mem ('=') c hc2
  have hda : decodeURIComponentJs (plusTo20 a) = some a := by
    rw [plusTo20_id a ha4]
    exact decodeURIComponentJs_plain a ha3
  have hdb : decodeURIComponentJs (plusTo20 b) = some b := by
    rw [plusTo20_id b hb4]
    exact decodeURIComponentJs_plain b hb3
  have hdc : decodeURIComponentJs (plusTo20 c) = some c := by
    rw [plusTo20_id c hc4]
    exact decodeURIComponentJs_plain c hc3
  unfold parseFormUrlEncoded
  rw [hs0]
  simp only [splitList, List.foldlM_cons, List.foldlM_nil]
  rw [hs1, hs2, hs3]
  simp only [List.mapM_cons, List.mapM_nil, hda, hdb, hdc]
  rfl

theorem c6_pair_truncated_witness :
    parseFormUrlEncoded ((S ("a")) ++ ('=' :: ((S ("b")) ++ ('=' :: (S ("c"))))))
      = some [((S ("a")), some (S ("b")))] :=
  c6_pair_truncated (S ("a")) (S ("b")) (S ("c")) (by decide) (by decide) (by decide)

/-- C6 as stated is false: a value containing a further `=` is NOT preserved
whole — for the body `a=b=c` the stored value is `b`, not `b=c`. -/
theorem c6_counterexample :
    parseFormUrlEncoded (S ("a=b=c")) = some [(S ("a"), some (S ("b")))]
    ∧ parseFormUrlEncoded (S ("a=b=c")) ≠ some [(S ("a"), some (S ("b=c")))] := by decide

end Srv
